import Mathlib

/-!
Verification development for the asana2sql synchronization engine
(asana2sql/Project.py).  The Python class Project is embedded shallowly:
each method becomes a Lean function threading an explicit SyncState that
holds the two memoization caches, the log of remote fetches, the count of
truncation warnings printed, the log of SQL write statements issued, and
the table contents.  The relational sink is modelled by the contract the
spec gives it: INSERT OR REPLACE is keyed by the identity (first) column,
DELETE removes every row whose identity column equals the bound value.
-/

namespace Asana2Sql

/-- Values stored in task attribute maps and table cells (Python scalars;
vnone models Python None, as returned by dict.get for a missing key). -/
inductive Value where
  | vnat : Nat → Value
  | vstr : String → Value
  | vnone : Value
deriving DecidableEq, Repr

/-- A remote record (Python dict): a finite map from attribute name to value. -/
abbrev Task := List (String × Value)

/-- Python dict.get(key): the stored value, or None when the key is absent. -/
def Task.get (t : Task) (k : String) : Value :=
  match t.find? (fun kv => kv.1 == k) with
  | some kv => kv.2
  | none => Value.vnone

/-- A field descriptor (asana2sql.fields): an optional SQL column name,
the set of remote attributes it needs, the value extractor, and the SQL
column-definition fragment. -/
structure Field where
  sql_name : Option String
  required_fields : List String
  get_data_from_object : Task → Value
  field_definition_sql : String

/-- Python truthiness of an optional string: None and the empty string are falsy. -/
def truthy : Option String → Bool
  | none => false
  | some s => s != ""

/-- Project metadata fetched with the projection id,name,archived. -/
structure ProjectData where
  id : Nat
  name : String
  archived : Bool
deriving DecidableEq, Repr

/-- The slice of the configuration Project reads: project_id (absent keys
default to None via vars(config).get), table_name, with_subtasks. -/
structure Config where
  project_id : Option Nat
  table_name : Option String
  with_subtasks : Bool

/-- Errors Project can raise: NoSuchProjectException (translated from the
remote NotFoundError) and the IndexError from direct_fields[0] on an empty
direct-field list. -/
inductive Err where
  | noSuchProject : Option Nat → Err
  | indexError : Err
deriving DecidableEq, Repr

/-- One SQL write statement issued through db_client.write. -/
inductive Stmt where
  | createTable : String → List String → Stmt
  | upsert : String → List String → List Value → Stmt
  | delete : String → String → Value → Stmt
deriving DecidableEq, Repr

/-- One remote fetch performed through the Asana client, recording the
attribute projection passed where one is passed. -/
inductive FetchEvent where
  | project : Option Nat → FetchEvent
  | tasksByProject : Option Nat → Finset String → FetchEvent
  | subtasksOf : Value → Finset String → FetchEvent
deriving DecidableEq

/-- Projection of a fetch event: the attribute set passed to the remote,
when the call takes one (task fetches do, the metadata fetch passes the
fixed list id,name,archived). -/
def FetchEvent.projection : FetchEvent → Option (Finset String)
  | .project _ => none
  | .tasksByProject _ pr => some pr
  | .subtasksOf _ pr => some pr

/-- The local table: a list of rows, each row listing the direct-field
values in declaration order (identity column first). -/
abbrev Table := List (List Value)

/-- Identity value of a row: its first cell (the identity column). -/
def rowId (row : List Value) : Value := row.headD Value.vnone

/-- Sink semantics of INSERT OR REPLACE under the identity-uniqueness
constraint: drop any row with the same identity value, append the new row. -/
def Table.upsertRow (T : Table) (row : List Value) : Table :=
  T.filter (fun r0 => rowId r0 != rowId row) ++ [row]

/-- Sink semantics of DELETE ... WHERE id = ?: drop rows with that identity. -/
def Table.deleteById (T : Table) (v : Value) : Table :=
  T.filter (fun r0 => rowId r0 != v)

/-- The set of identity values stored in the table. -/
def Table.ids (T : Table) : Finset Value :=
  (T.map rowId).toFinset

/-- The remote service (Asana client): project metadata lookup (none models
NotFoundError), top-level task fetch, subtask fetch. -/
structure Remote where
  projects_find_by_id : Option Nat → Option ProjectData
  tasks_find_by_project : Option Nat → Finset String → List Task
  tasks_subtasks : Value → Finset String → List Task

/-- The mutable state a Project instance threads: both caches, the fetch
log, the warning count, the issued write statements, and the table. -/
structure SyncState where
  project_data_cache : Option ProjectData
  task_cache : Option (List Task)
  fetches : List FetchEvent
  warnings : Nat
  statements : List Stmt
  table : Table

/-- The immutable part of a Project instance set up by the constructor. -/
structure Project where
  config : Config
  project_id : Option Nat
  table_name_cfg : Option String
  direct_fields : List Field
  indirect_fields : List Field

/-- Constructor loop body _add_field: append to direct_fields when sql_name
is truthy, else to indirect_fields. -/
def addField (acc : List Field × List Field) (f : Field) : List Field × List Field :=
  if truthy f.sql_name then (acc.1 ++ [f], acc.2) else (acc.1, acc.2 ++ [f])

/-- Project.__init__: read project_id and table_name from the config and
partition the declared fields with _add_field in declaration order. -/
def Project.init (config : Config) (fields : List Field) : Project :=
  { config := config
    project_id := config.project_id
    table_name_cfg := config.table_name
    direct_fields := (fields.foldl addField ([], [])).1
    indirect_fields := (fields.foldl addField ([], [])).2 }

/-- Project._required_fields: the set of attribute names needed by all
declared fields, direct then indirect (a Python set: no duplicates). -/
def Project.requiredFields (p : Project) : Finset String :=
  (p.direct_fields ++ p.indirect_fields).foldr
    (fun f acc => f.required_fields.toFinset ∪ acc) ∅

/-- Project._project_data: return the cache when set; otherwise fetch the
metadata, caching on success and raising NoSuchProjectException when the
remote reports not-found. -/
def Project.projectData (p : Project) (r : Remote) (s : SyncState) :
    Except Err ProjectData × SyncState :=
  match s.project_data_cache with
  | some d => (.ok d, s)
  | none =>
    match r.projects_find_by_id p.project_id with
    | some d =>
      (.ok d,
       { s with project_data_cache := some d
                fetches := s.fetches ++ [FetchEvent.project p.project_id] })
    | none =>
      (.error (.noSuchProject p.project_id),
       { s with fetches := s.fetches ++ [FetchEvent.project p.project_id] })

/-- Project._tasks: return the cache when set; otherwise fetch the top-level
tasks with the required-fields projection, print a truncation warning at 50
or more results, optionally fetch and flatten subtasks, and cache. -/
def Project.tasksM (p : Project) (r : Remote) (s : SyncState) :
    List Task × SyncState :=
  match s.task_cache with
  | some ts => (ts, s)
  | none =>
    let req := p.requiredFields
    let result := r.tasks_find_by_project p.project_id req
    let warnings1 := if 50 ≤ result.length then s.warnings + 1 else s.warnings
    let fetches1 := s.fetches ++ [FetchEvent.tasksByProject p.project_id req]
    if p.config.with_subtasks then
      let subtask_lists := result.map (fun t => r.tasks_subtasks (Task.get t "id") req)
      let final := result ++ subtask_lists.flatten
      (final,
       { s with task_cache := some final
                warnings := warnings1
                fetches := fetches1 ++
                  result.map (fun t => FetchEvent.subtasksOf (Task.get t "id") req) })
    else
      (result,
       { s with task_cache := some result
                warnings := warnings1
                fetches := fetches1 })

/-- Modelled from the spec: util.sql_safe_name (asana2sql/util.py is not in
src/).  The spec requires a SQL-safe transformation in which
non-alphanumeric characters are normalized so the result is a valid
identifier; this model replaces each non-alphanumeric character. -/
def sql_safe_name (s : String) : String :=
  String.mk (s.data.map (fun c => if c.isAlphanum then c else '_'))

/-- Project.project_name: the name attribute of the fetched metadata. -/
def Project.projectName (p : Project) (r : Remote) (s : SyncState) :
    Except Err String × SyncState :=
  match p.projectData r s with
  | (.error e, s1) => (.error e, s1)
  | (.ok d, s1) => (.ok d.name, s1)

/-- Project.table_name: sql_safe_name of the configured name when truthy,
else sql_safe_name of the remote project name. -/
def Project.tableName (p : Project) (r : Remote) (s : SyncState) :
    Except Err String × SyncState :=
  if truthy p.table_name_cfg then
    (.ok (sql_safe_name (p.table_name_cfg.getD "")), s)
  else
    match p.projectName r s with
    | (.error e, s1) => (.error e, s1)
    | (.ok n, s1) => (.ok (sql_safe_name n), s1)

/-- Project.create_table: issue CREATE TABLE IF NOT EXISTS with the
column definitions of the direct fields in declaration order; creating a
table changes no rows. -/
def Project.createTable (p : Project) (r : Remote) (s : SyncState) :
    Except Err Unit × SyncState :=
  match p.tableName r s with
  | (.error e, s1) => (.error e, s1)
  | (.ok tn, s1) =>
    (.ok (),
     { s1 with statements := s1.statements ++
         [Stmt.createTable tn (p.direct_fields.map (fun f => f.field_definition_sql))] })

/-- Row written for a task: each direct field extracts its value, in order. -/
def Project.rowOf (p : Project) (t : Task) : List Value :=
  p.direct_fields.map (fun f => f.get_data_from_object t)

/-- Column-name list of the upsert statement: the direct field sql_names. -/
def Project.columnNames (p : Project) : List String :=
  p.direct_fields.map (fun f => f.sql_name.getD "")

/-- Project.insert_or_replace: issue the INSERT OR REPLACE for the task row
(also invoking each indirect field extractor for its side effects, whose
results are discarded). -/
def Project.insertOrReplace (p : Project) (r : Remote) (t : Task) (s : SyncState) :
    Except Err Unit × SyncState :=
  match p.tableName r s with
  | (.error e, s1) => (.error e, s1)
  | (.ok tn, s1) =>
    let row := p.rowOf t
    let _ := p.indirect_fields.map (fun f => f.get_data_from_object t)
    (.ok (),
     { s1 with statements := s1.statements ++ [Stmt.upsert tn p.columnNames row]
               table := s1.table.upsertRow row })

/-- Project._id_field: the first direct field; none models the IndexError
raised by direct_fields[0] on an empty list. -/
def Project.idField (p : Project) : Option Field :=
  p.direct_fields.head?

/-- Project.delete: look up the identity field, then issue the DELETE for
the given identity value. -/
def Project.delete (p : Project) (r : Remote) (task_id : Value) (s : SyncState) :
    Except Err Unit × SyncState :=
  match p.idField with
  | none => (.error .indexError, s)
  | some idf =>
    match p.tableName r s with
    | (.error e, s1) => (.error e, s1)
    | (.ok tn, s1) =>
      (.ok (),
       { s1 with statements := s1.statements ++
           [Stmt.delete tn (idf.sql_name.getD "") task_id]
                 table := s1.table.deleteById task_id })

/-- Project.db_task_ids: look up the identity field, then read back the set
of identity-column values stored in the table (a Python set, modelled as a
duplicate-free list). -/
def Project.dbTaskIds (p : Project) (r : Remote) (s : SyncState) :
    Except Err (List Value) × SyncState :=
  match p.idField with
  | none => (.error .indexError, s)
  | some _ =>
    match p.tableName r s with
    | (.error e, s1) => (.error e, s1)
    | (.ok _, s1) => (.ok (s1.table.map rowId).dedup, s1)

/-- Project.asana_task_ids: the set of id attributes of the fetched tasks
(a Python set, modelled as a duplicate-free list). -/
def Project.asanaTaskIds (p : Project) (r : Remote) (s : SyncState) :
    List Value × SyncState :=
  let (ts, s1) := p.tasksM r s
  ((ts.map (fun t => Task.get t "id")).dedup, s1)

/-- Upsert loop of synchronize: insert_or_replace every task in order. -/
def Project.upsertAll (p : Project) (r : Remote) (ts : List Task) (s : SyncState) :
    Except Err Unit × SyncState :=
  match ts with
  | [] => (.ok (), s)
  | t :: rest =>
    match p.insertOrReplace r t s with
    | (.error e, s1) => (.error e, s1)
    | (.ok _, s1) => p.upsertAll r rest s1

/-- Delete loop of synchronize: delete every stale identity in order. -/
def Project.deleteAll (p : Project) (r : Remote) (ids : List Value) (s : SyncState) :
    Except Err Unit × SyncState :=
  match ids with
  | [] => (.ok (), s)
  | v :: rest =>
    match p.delete r v s with
    | (.error e, s1) => (.error e, s1)
    | (.ok _, s1) => p.deleteAll r rest s1

/-- Project.synchronize: read the stored ids, fetch the remote ids, compute
the stale difference, upsert every fetched task, then delete every stale id. -/
def Project.synchronize (p : Project) (r : Remote) (s : SyncState) :
    Except Err Unit × SyncState :=
  match p.dbTaskIds r s with
  | (.error e, s1) => (.error e, s1)
  | (.ok db_task_ids, s1) =>
    let (asana_task_ids, s2) := p.asanaTaskIds r s1
    let ids_to_remove := db_task_ids.filter (fun v => !(asana_task_ids.contains v))
    let (ts, s3) := p.tasksM r s2
    match p.upsertAll r ts s3 with
    | (.error e, s4) => (.error e, s4)
    | (.ok _, s4) => p.deleteAll r ids_to_remove s4

/-- Table name resolution as a pure function of project and remote: the
value every successful tableName call returns. -/
def Project.resolvedName (p : Project) (r : Remote) : Except Err String :=
  if truthy p.table_name_cfg then
    .ok (sql_safe_name (p.table_name_cfg.getD ""))
  else
    match r.projects_find_by_id p.project_id with
    | some d => .ok (sql_safe_name d.name)
    | none => .error (.noSuchProject p.project_id)

/-- Cache coherence: the metadata cache is unset or holds what the remote
returns (true initially and preserved by every operation). -/
def coherent (p : Project) (r : Remote) (s : SyncState) : Prop :=
  s.project_data_cache = none ∨
    s.project_data_cache = r.projects_find_by_id p.project_id

/-- The id set of a task list, keyed by the id attribute. -/
def taskIds (ts : List Task) : Finset Value :=
  (ts.map (fun t => Task.get t "id")).toFinset

/-- Successful table-name resolution: under a coherent cache, tableName
returns the resolved name and changes nothing but the metadata cache and
fetch log, preserving coherence. -/
theorem tableName_ok (p : Project) (r : Remote) (s : SyncState) (tn : String)
    (hcoh : coherent p r s) (hres : p.resolvedName r = .ok tn) :
    ∃ s1, p.tableName r s = (.ok tn, s1) ∧ s1.table = s.table ∧
      s1.statements = s.statements ∧ s1.task_cache = s.task_cache ∧
      s1.warnings = s.warnings ∧ coherent p r s1 := by
  unfold Project.resolvedName at hres
  unfold Project.tableName Project.projectName Project.projectData
  by_cases ht : truthy p.table_name_cfg
  · simp only [ht, if_true] at hres ⊢
    cases hres
    exact ⟨s, rfl, rfl, rfl, rfl, rfl, hcoh⟩
  · simp only [ht, if_false, Bool.false_eq_true] at hres ⊢
    rcases hcoh with h0 | h0
    · rw [h0]
      cases hfind : r.projects_find_by_id p.project_id with
      | none => rw [hfind] at hres; exact absurd hres (by simp)
      | some d =>
        rw [hfind] at hres
        cases hres
        refine ⟨_, rfl, rfl, rfl, rfl, rfl, ?_⟩
        exact Or.inr (by simp [hfind])
    · cases hcache : s.project_data_cache with
      | none =>
        rw [hcache] at h0
        rw [← h0] at hres
        simp at hres
      | some d =>
        rw [hcache] at h0
        rw [← h0] at hres
        change Except.ok (sql_safe_name d.name) = Except.ok tn at hres
        cases hres
        exact ⟨s, rfl, rfl, rfl, rfl, rfl, Or.inr (hcache.trans h0)⟩

/-- Successful upsert: appends one upsert statement and applies the row to
the table, preserving the task cache and coherence. -/
theorem insertOrReplace_ok (p : Project) (r : Remote) (t : Task) (s : SyncState)
    (tn : String) (hcoh : coherent p r s) (hres : p.resolvedName r = .ok tn) :
    ∃ s1, p.insertOrReplace r t s = (.ok (), s1) ∧
      s1.table = s.table.upsertRow (p.rowOf t) ∧
      s1.statements = s.statements ++ [Stmt.upsert tn p.columnNames (p.rowOf t)] ∧
      s1.task_cache = s.task_cache ∧ s1.warnings = s.warnings ∧ coherent p r s1 := by
  obtain ⟨s1, htn, hT, hS, hC, hW, hcoh1⟩ := tableName_ok p r s tn hcoh hres
  refine ⟨({ s1 with
              statements := s1.statements ++ [Stmt.upsert tn p.columnNames (p.rowOf t)]
              table := s1.table.upsertRow (p.rowOf t) } : SyncState), ?_, ?_, ?_, ?_, ?_, ?_⟩
  · unfold Project.insertOrReplace
    rw [htn]
  · simp [hT]
  · simp [hS]
  · simp [hC]
  · simp [hW]
  · simpa [coherent] using hcoh1

/-- Successful delete: appends one delete statement naming the identity
column of the first direct field and removes the rows with that identity. -/
theorem delete_ok (p : Project) (r : Remote) (v : Value) (s : SyncState)
    (tn : String) (f0 : Field) (fs : List Field)
    (hcoh : coherent p r s) (hres : p.resolvedName r = .ok tn)
    (hd : p.direct_fields = f0 :: fs) :
    ∃ s1, p.delete r v s = (.ok (), s1) ∧
      s1.table = s.table.deleteById v ∧
      s1.statements = s.statements ++ [Stmt.delete tn (f0.sql_name.getD "") v] ∧
      s1.task_cache = s.task_cache ∧ s1.warnings = s.warnings ∧ coherent p r s1 := by
  obtain ⟨s1, htn, hT, hS, hC, hW, hcoh1⟩ := tableName_ok p r s tn hcoh hres
  refine ⟨({ s1 with
              statements := s1.statements ++ [Stmt.delete tn (f0.sql_name.getD "") v]
              table := s1.table.deleteById v } : SyncState), ?_, ?_, ?_, ?_, ?_, ?_⟩
  · unfold Project.delete Project.idField
    rw [hd]
    simp only [List.head?]
    rw [htn]
  · simp [hT]
  · simp [hS]
  · simp [hC]
  · simp [hW]
  · simpa [coherent] using hcoh1

/-- Successful id read-back: returns the duplicate-free list of identity
values of the current table and changes neither table nor logs. -/
theorem dbTaskIds_ok (p : Project) (r : Remote) (s : SyncState)
    (tn : String) (f0 : Field) (fs : List Field)
    (hcoh : coherent p r s) (hres : p.resolvedName r = .ok tn)
    (hd : p.direct_fields = f0 :: fs) :
    ∃ s1, p.dbTaskIds r s = (.ok (s.table.map rowId).dedup, s1) ∧
      s1.table = s.table ∧ s1.statements = s.statements ∧
      s1.task_cache = s.task_cache ∧ s1.warnings = s.warnings ∧ coherent p r s1 := by
  obtain ⟨s1, htn, hT, hS, hC, hW, hcoh1⟩ := tableName_ok p r s tn hcoh hres
  refine ⟨s1, ?_, hT, hS, hC, hW, hcoh1⟩
  unfold Project.dbTaskIds Project.idField
  rw [hd]
  simp only [List.head?]
  rw [htn]
  simp [hT]

/-- Coherence depends only on the metadata cache. -/
theorem coherent_of_cache_eq (p : Project) (r : Remote) (s s1 : SyncState)
    (h : s1.project_data_cache = s.project_data_cache) (hcoh : coherent p r s) :
    coherent p r s1 := by
  unfold coherent at *
  rw [h]
  exact hcoh

/-- Task fetching leaves the table, statement log, and metadata cache
unchanged, and caches exactly the returned list. -/
theorem tasksM_spec (p : Project) (r : Remote) (s : SyncState) :
    (p.tasksM r s).2.table = s.table ∧
    (p.tasksM r s).2.statements = s.statements ∧
    (p.tasksM r s).2.project_data_cache = s.project_data_cache ∧
    (p.tasksM r s).2.task_cache = some (p.tasksM r s).1 := by
  unfold Project.tasksM
  cases htc : s.task_cache with
  | some ts => simp [htc]
  | none =>
    by_cases hw : p.config.with_subtasks <;> simp [htc, hw]

/-- The fetched task list depends only on the task cache (and p, r). -/
theorem tasksM_congr (p : Project) (r : Remote) (s s1 : SyncState)
    (h : s1.task_cache = s.task_cache) :
    (p.tasksM r s1).1 = (p.tasksM r s).1 := by
  unfold Project.tasksM
  rw [h]
  cases htc : s.task_cache with
  | some ts => simp
  | none =>
    by_cases hw : p.config.with_subtasks <;> simp [hw]

/-- Upsert loop: succeeds, folds the rows into the table in task order, and
appends exactly one upsert statement per task in task order. -/
theorem upsertAll_ok (p : Project) (r : Remote) (ts : List Task) (s : SyncState)
    (tn : String) (hcoh : coherent p r s) (hres : p.resolvedName r = .ok tn) :
    ∃ s1, p.upsertAll r ts s = (.ok (), s1) ∧
      s1.table = ts.foldl (fun T t => T.upsertRow (p.rowOf t)) s.table ∧
      s1.statements = s.statements ++
        ts.map (fun t => Stmt.upsert tn p.columnNames (p.rowOf t)) ∧
      s1.task_cache = s.task_cache ∧ coherent p r s1 := by
  induction ts generalizing s with
  | nil => exact ⟨s, rfl, rfl, by simp, rfl, hcoh⟩
  | cons t rest ih =>
    obtain ⟨s1, h1, hT, hS, hC, hW, hcoh1⟩ := insertOrReplace_ok p r t s tn hcoh hres
    obtain ⟨s2, h2, hT2, hS2, hC2, hcoh2⟩ := ih s1 hcoh1
    refine ⟨s2, ?_, ?_, ?_, ?_, hcoh2⟩
    · unfold Project.upsertAll
      rw [h1]
      exact h2
    · rw [hT2, hT, List.foldl_cons]
    · rw [hS2, hS, List.map_cons]
      simp
    · rw [hC2, hC]

/-- Delete loop: succeeds, removes the listed identities from the table in
order, and appends exactly one delete statement per identity in order. -/
theorem deleteAll_ok (p : Project) (r : Remote) (ids : List Value) (s : SyncState)
    (tn : String) (f0 : Field) (fs : List Field)
    (hcoh : coherent p r s) (hres : p.resolvedName r = .ok tn)
    (hd : p.direct_fields = f0 :: fs) :
    ∃ s1, p.deleteAll r ids s = (.ok (), s1) ∧
      s1.table = ids.foldl Table.deleteById s.table ∧
      s1.statements = s.statements ++
        ids.map (fun v => Stmt.delete tn (f0.sql_name.getD "") v) ∧
      s1.task_cache = s.task_cache ∧ coherent p r s1 := by
  induction ids generalizing s with
  | nil => exact ⟨s, rfl, rfl, by simp, rfl, hcoh⟩
  | cons v rest ih =>
    obtain ⟨s1, h1, hT, hS, hC, hW, hcoh1⟩ := delete_ok p r v s tn f0 fs hcoh hres hd
    obtain ⟨s2, h2, hT2, hS2, hC2, hcoh2⟩ := ih s1 hcoh1
    refine ⟨s2, ?_, ?_, ?_, ?_, hcoh2⟩
    · unfold Project.deleteAll
      rw [h1]
      exact h2
    · rw [hT2, hT, List.foldl_cons]
    · rw [hS2, hS, List.map_cons]
      simp
    · rw [hC2, hC]

/-- A set task cache is returned as is, with no state change. -/
theorem tasksM_cached (p : Project) (r : Remote) (s : SyncState) (ts : List Task)
    (h : s.task_cache = some ts) : p.tasksM r s = (ts, s) := by
  unfold Project.tasksM
  rw [h]

/-- asana_task_ids in terms of the task fetch. -/
theorem asanaTaskIds_eq (p : Project) (r : Remote) (s : SyncState) :
    p.asanaTaskIds r s =
      (((p.tasksM r s).1.map (fun t => Task.get t "id")).dedup, (p.tasksM r s).2) := by
  unfold Project.asanaTaskIds
  rcases h : p.tasksM r s with ⟨ts, s1⟩
  simp

/-- The stale identity list synchronize computes: stored ids (deduplicated)
not among the fetched ids. -/
def staleIds (T : Table) (ts : List Task) : List Value :=
  (T.map rowId).dedup.filter
    (fun v => !(((ts.map (fun t => Task.get t "id")).dedup).contains v))

/-- Characterization of a successful synchronize run: it returns ok, caches
the fetched tasks, applies all upserts (in task order) and then all stale
deletes to the table, and appends exactly the corresponding statements, all
upserts first. -/
theorem synchronize_ok (p : Project) (r : Remote) (s : SyncState)
    (tn : String) (f0 : Field) (fs : List Field) (ts : List Task)
    (hcoh : coherent p r s) (hres : p.resolvedName r = .ok tn)
    (hd : p.direct_fields = f0 :: fs) (hts : (p.tasksM r s).1 = ts) :
    ∃ s1, p.synchronize r s = (.ok (), s1) ∧
      s1.table = (staleIds s.table ts).foldl Table.deleteById
        (ts.foldl (fun T t => T.upsertRow (p.rowOf t)) s.table) ∧
      s1.statements = s.statements ++
        ts.map (fun t => Stmt.upsert tn p.columnNames (p.rowOf t)) ++
        (staleIds s.table ts).map (fun v => Stmt.delete tn (f0.sql_name.getD "") v) ∧
      s1.task_cache = some ts ∧ coherent p r s1 := by
  obtain ⟨sA, hdbEq, hAT, hAS, hAC, hAW, hcohA⟩ := dbTaskIds_ok p r s tn f0 fs hcoh hres hd
  have htsA : (p.tasksM r sA).1 = ts := by rw [tasksM_congr p r s sA hAC, hts]
  obtain ⟨hBT, hBS, hBP, hBC⟩ := tasksM_spec p r sA
  have hcohB : coherent p r (p.tasksM r sA).2 := coherent_of_cache_eq p r sA _ hBP hcohA
  have hBC' : (p.tasksM r sA).2.task_cache = some ts := by rw [hBC, htsA]
  have htasksB : p.tasksM r (p.tasksM r sA).2 = (ts, (p.tasksM r sA).2) :=
    tasksM_cached p r _ ts hBC'
  obtain ⟨sC, hupsEq, hCT, hCS, hCC, hcohC⟩ :=
    upsertAll_ok p r ts (p.tasksM r sA).2 tn hcohB hres
  obtain ⟨sD, hdelEq, hDT, hDS, hDC, hcohD⟩ :=
    deleteAll_ok p r (staleIds s.table ts) sC tn f0 fs hcohC hres hd
  refine ⟨sD, ?_, ?_, ?_, ?_, hcohD⟩
  · unfold Project.synchronize
    simp only [hdbEq, asanaTaskIds_eq, htsA, htasksB, hupsEq]
    have hstale : ((s.table.map rowId).dedup).filter
        (fun v => !((ts.map (fun t => Task.get t "id")).dedup).contains v) =
        staleIds s.table ts := rfl
    rw [hstale]
    exact hdelEq
  · rw [hDT, hCT, hBT, hAT]
  · rw [hDS, hCS, hBS, hAS, List.append_assoc]
  · rw [hDC, hCC, hBC']

/-- One upsert adds the row identity to the table identity set. -/
theorem upsertRow_ids (T : Table) (row : List Value) :
    (T.upsertRow row).ids = T.ids ∪ {rowId row} := by
  ext v
  simp [Table.ids, Table.upsertRow, List.mem_filter]
  constructor
  · rintro (⟨r0, ⟨hr0, hne⟩, hv⟩ | hv)
    · exact Or.inl ⟨r0, hr0, hv⟩
    · exact Or.inr hv
  · rintro (⟨r0, hr0, hv⟩ | hv)
    · by_cases he : rowId r0 = rowId row
      · exact Or.inr (hv ▸ he)
      · exact Or.inl ⟨r0, ⟨hr0, he⟩, hv⟩
    · exact Or.inr hv

/-- The upsert fold adds exactly the written row identities. -/
theorem foldl_upsertRow_ids (rows : List (List Value)) (T : Table) :
    (rows.foldl Table.upsertRow T).ids = T.ids ∪ (rows.map rowId).toFinset := by
  induction rows generalizing T with
  | nil => simp [Table.ids]
  | cons row rest ih =>
    rw [List.foldl_cons, ih, upsertRow_ids]
    ext v
    simp
    tauto

/-- One delete removes exactly that identity from the identity set. -/
theorem deleteById_ids (T : Table) (v : Value) :
    (T.deleteById v).ids = T.ids.erase v := by
  ext w
  simp [Table.ids, Table.deleteById, List.mem_filter, Finset.mem_erase]
  constructor
  · rintro ⟨r0, ⟨hr0, hne⟩, hv⟩
    exact ⟨hv ▸ hne, r0, hr0, hv⟩
  · rintro ⟨hne, r0, hr0, hv⟩
    exact ⟨r0, ⟨hr0, hv ▸ hne⟩, hv⟩

/-- The delete fold removes exactly the listed identities. -/
theorem foldl_deleteById_ids (ids : List Value) (T : Table) :
    (ids.foldl Table.deleteById T).ids = T.ids \ ids.toFinset := by
  induction ids generalizing T with
  | nil => simp
  | cons v rest ih =>
    rw [List.foldl_cons, ih, deleteById_ids]
    ext w
    simp [Finset.mem_sdiff, Finset.mem_erase]
    tauto

/-- The stale list enumerates exactly the set difference of the stored
identity set and the fetched id set. -/
theorem staleIds_toFinset (T : Table) (ts : List Task) :
    (staleIds T ts).toFinset = T.ids \ taskIds ts := by
  ext v
  simp [staleIds, Table.ids, taskIds, List.mem_filter]

/-- Under the identity convention, the written row of a task carries the id
attribute of the task as its identity value. -/
theorem rowId_rowOf (p : Project) (t : Task) (f0 : Field) (fs : List Field)
    (hd : p.direct_fields = f0 :: fs)
    (hid : ∀ t0, f0.get_data_from_object t0 = Task.get t0 "id") :
    rowId (p.rowOf t) = Task.get t "id" := by
  unfold Project.rowOf rowId
  rw [hd]
  simp [hid t]

/-- C1 (convergence): after synchronize(), the set of identity values stored
in the table equals the set of id attributes of the fetched remote records
exactly: every remote id is upserted and every stale stored id is deleted. -/
theorem claim_C1_convergence (p : Project) (r : Remote) (s : SyncState)
    (tn : String) (f0 : Field) (fs : List Field)
    (hcoh : coherent p r s) (hres : p.resolvedName r = .ok tn)
    (hd : p.direct_fields = f0 :: fs)
    (hid : ∀ t, f0.get_data_from_object t = Task.get t "id") :
    (p.synchronize r s).1 = .ok () ∧
    Table.ids (p.synchronize r s).2.table = taskIds (p.tasksM r s).1 := by
  obtain ⟨s1, hrun, hT, hS, hC, hcoh1⟩ :=
    synchronize_ok p r s tn f0 fs (p.tasksM r s).1 hcoh hres hd rfl
  rw [hrun]
  refine ⟨rfl, ?_⟩
  rw [hT]
  rw [foldl_deleteById_ids]
  have hfold : (p.tasksM r s).1.foldl (fun T t => T.upsertRow (p.rowOf t)) s.table
      = ((p.tasksM r s).1.map p.rowOf).foldl Table.upsertRow s.table := by
    rw [List.foldl_map]
  rw [hfold, foldl_upsertRow_ids, staleIds_toFinset]
  have hids : (((p.tasksM r s).1.map p.rowOf).map rowId).toFinset
      = taskIds (p.tasksM r s).1 := by
    rw [List.map_map]
    unfold taskIds
    congr 1
    apply List.map_congr_left
    intro t ht
    exact rowId_rowOf p t f0 fs hd hid
  rw [hids]
  ext v
  simp [Finset.mem_union, Finset.mem_sdiff]
  tauto

/-- C3 (ordering and stale set): synchronize() computes the stale set as the
set difference of stored ids minus fetched ids, and its statement trace is
all upserts (one per fetched record, in fetch order) followed by all
deletes: no delete ever precedes an upsert. -/
theorem claim_C3_upserts_before_deletes (p : Project) (r : Remote) (s : SyncState)
    (tn : String) (f0 : Field) (fs : List Field)
    (hcoh : coherent p r s) (hres : p.resolvedName r = .ok tn)
    (hd : p.direct_fields = f0 :: fs) :
    (p.synchronize r s).1 = .ok () ∧
    (p.synchronize r s).2.statements = s.statements ++
      (p.tasksM r s).1.map (fun t => Stmt.upsert tn p.columnNames (p.rowOf t)) ++
      (staleIds s.table (p.tasksM r s).1).map
        (fun v => Stmt.delete tn (f0.sql_name.getD "") v) ∧
    (staleIds s.table (p.tasksM r s).1).toFinset =
      Table.ids s.table \ taskIds (p.tasksM r s).1 := by
  obtain ⟨s1, hrun, hT, hS, hC, hcoh1⟩ :=
    synchronize_ok p r s tn f0 fs (p.tasksM r s).1 hcoh hres hd rfl
  rw [hrun]
  exact ⟨rfl, hS, staleIds_toFinset s.table (p.tasksM r s).1⟩

/-- The delete fold is one filter dropping all listed identities. -/
theorem foldl_deleteById_filter (ids : List Value) (T : Table) :
    ids.foldl Table.deleteById T = T.filter (fun r0 => !(ids.contains (rowId r0))) := by
  induction ids generalizing T with
  | nil => simp
  | cons v rest ih =>
    rw [List.foldl_cons, ih]
    unfold Table.deleteById
    rw [List.filter_filter]
    apply List.filter_congr
    intro r0 hr0
    by_cases h1 : rowId r0 = v <;> by_cases h2 : rowId r0 ∈ rest <;>
      simp [h1, h2]

/-- The upsert fold splits into the survivors of the old table (rows whose
identity is not rewritten) followed by the canonical table built from the
written rows alone. -/
theorem foldl_upsertRow_split (rows : List (List Value)) (T : Table) :
    rows.foldl Table.upsertRow T =
      T.filter (fun r0 => !((rows.map rowId).contains (rowId r0))) ++
        rows.foldl Table.upsertRow [] := by
  induction rows generalizing T with
  | nil => simp
  | cons row rest ih =>
    rw [List.foldl_cons, ih]
    have hnil : Table.upsertRow [] row = [row] := rfl
    rw [List.foldl_cons, hnil, ih [row]]
    unfold Table.upsertRow
    rw [List.filter_append, List.filter_filter, List.append_assoc]
    congr 1
    apply List.filter_congr
    intro r0 hr0
    by_cases h1 : rowId r0 = rowId row <;>
      by_cases h2 : ∃ a ∈ rest, rowId a = rowId r0 <;> simp [h1, h2]

/-- Every row of the canonical table is one of the written rows, so its
identity is among the written identities. -/
theorem rowId_mem_of_mem_canonical (rows : List (List Value)) (r0 : List Value)
    (h : r0 ∈ rows.foldl Table.upsertRow []) : rowId r0 ∈ rows.map rowId := by
  have hsub : Table.ids (rows.foldl Table.upsertRow []) = (rows.map rowId).toFinset := by
    rw [foldl_upsertRow_ids]
    simp [Table.ids]
  have hmem : rowId r0 ∈ Table.ids (rows.foldl Table.upsertRow []) := by
    unfold Table.ids
    simp
    exact ⟨r0, h, rfl⟩
  rw [hsub] at hmem
  simpa using hmem

/-- Under the identity convention, the written identities list is precisely
the fetched id attribute list. -/
theorem writtenIds_eq (p : Project) (ts : List Task) (f0 : Field) (fs : List Field)
    (hd : p.direct_fields = f0 :: fs)
    (hid : ∀ t, f0.get_data_from_object t = Task.get t "id") :
    (ts.map p.rowOf).map rowId = ts.map (fun t => Task.get t "id") := by
  rw [List.map_map]
  apply List.map_congr_left
  intro t ht
  exact rowId_rowOf p t f0 fs hd hid

/-- After a successful synchronize, the table is exactly the canonical
table of the written rows: every old row was either rewritten or stale. -/
theorem synchronize_table_canonical (p : Project) (r : Remote) (s : SyncState)
    (tn : String) (f0 : Field) (fs : List Field)
    (hcoh : coherent p r s) (hres : p.resolvedName r = .ok tn)
    (hd : p.direct_fields = f0 :: fs)
    (hid : ∀ t, f0.get_data_from_object t = Task.get t "id") :
    (p.synchronize r s).2.table =
      ((p.tasksM r s).1.map p.rowOf).foldl Table.upsertRow [] := by
  obtain ⟨s1, hrun, hT, hS, hC, hcoh1⟩ :=
    synchronize_ok p r s tn f0 fs (p.tasksM r s).1 hcoh hres hd rfl
  rw [hrun]
  rw [hT]
  have hmapfold : List.foldl (fun T t => T.upsertRow (p.rowOf t)) s.table (p.tasksM r s).1
      = List.foldl Table.upsertRow s.table ((p.tasksM r s).1.map p.rowOf) :=
    (List.foldl_map p.rowOf Table.upsertRow (p.tasksM r s).1 s.table).symm
  rw [hmapfold, foldl_upsertRow_split ((p.tasksM r s).1.map p.rowOf) s.table,
      foldl_deleteById_filter, List.filter_append]
  have hW := writtenIds_eq p (p.tasksM r s).1 f0 fs hd hid
  have h1 : (s.table.filter
      (fun r0 => !(((p.tasksM r s).1.map p.rowOf).map rowId).contains (rowId r0))).filter
      (fun r0 => !((staleIds s.table (p.tasksM r s).1).contains (rowId r0))) = [] := by
    apply List.filter_eq_nil_iff.mpr
    intro r0 hr0
    rw [List.mem_filter] at hr0
    obtain ⟨hmem, hnw⟩ := hr0
    rw [hW] at hnw
    simp at hnw
    simp [staleIds]
    exact ⟨⟨r0, hmem, rfl⟩, hnw⟩
  have h2 : (((p.tasksM r s).1.map p.rowOf).foldl Table.upsertRow []).filter
      (fun r0 => !((staleIds s.table (p.tasksM r s).1).contains (rowId r0))) =
      ((p.tasksM r s).1.map p.rowOf).foldl Table.upsertRow [] := by
    apply List.filter_eq_self.mpr
    intro r0 hr0
    have hmemW := rowId_mem_of_mem_canonical _ r0 hr0
    rw [hW] at hmemW
    simp at hmemW
    simp [staleIds]
    exact Or.inr hmemW
  rw [h1, h2, List.nil_append]

/-- C2 (idempotence): with the remote state fixed, a second synchronize()
on the same instance succeeds, leaves the table contents exactly as after
the first run, computes an empty stale set, and issues only the
content-identical upserts (no deletes). -/
theorem claim_C2_idempotence (p : Project) (r : Remote) (s : SyncState)
    (tn : String) (f0 : Field) (fs : List Field)
    (hcoh : coherent p r s) (hres : p.resolvedName r = .ok tn)
    (hd : p.direct_fields = f0 :: fs)
    (hid : ∀ t, f0.get_data_from_object t = Task.get t "id") :
    (p.synchronize r (p.synchronize r s).2).1 = .ok () ∧
    (p.synchronize r (p.synchronize r s).2).2.table = (p.synchronize r s).2.table ∧
    staleIds (p.synchronize r s).2.table (p.tasksM r (p.synchronize r s).2).1 = [] ∧
    (p.synchronize r (p.synchronize r s).2).2.statements =
      (p.synchronize r s).2.statements ++
        (p.tasksM r s).1.map (fun t => Stmt.upsert tn p.columnNames (p.rowOf t)) := by
  have hcanon := synchronize_table_canonical p r s tn f0 fs hcoh hres hd hid
  obtain ⟨s1, hrun, hT, hS, hC, hcoh1⟩ :=
    synchronize_ok p r s tn f0 fs (p.tasksM r s).1 hcoh hres hd rfl
  rw [hrun] at hcanon ⊢
  have hW := writtenIds_eq p (p.tasksM r s).1 f0 fs hd hid
  have hts1 : p.tasksM r s1 = ((p.tasksM r s).1, s1) :=
    tasksM_cached p r s1 (p.tasksM r s).1 hC
  have hstale2 : staleIds s1.table (p.tasksM r s).1 = [] := by
    unfold staleIds
    apply List.filter_eq_nil_iff.mpr
    intro v hv
    rw [List.mem_dedup] at hv
    simp only [List.mem_map] at hv
    obtain ⟨r0, hr0, hveq⟩ := hv
    rw [hcanon] at hr0
    have hmemW := rowId_mem_of_mem_canonical _ r0 hr0
    rw [hW] at hmemW
    subst hveq
    simp at hmemW ⊢
    exact hmemW
  obtain ⟨s2, hrun2, hT2, hS2, hC2, hcoh2⟩ :=
    synchronize_ok p r s1 tn f0 fs (p.tasksM r s).1 hcoh1 hres hd
      (by rw [hts1])
  rw [hrun2]
  have htable2 : s2.table = s1.table := by
    rw [hT2, hstale2, List.foldl_nil]
    have hmapfold : List.foldl (fun T t => T.upsertRow (p.rowOf t)) s1.table (p.tasksM r s).1
        = List.foldl Table.upsertRow s1.table ((p.tasksM r s).1.map p.rowOf) :=
      (List.foldl_map p.rowOf Table.upsertRow (p.tasksM r s).1 s1.table).symm
    rw [hmapfold, foldl_upsertRow_split ((p.tasksM r s).1.map p.rowOf) s1.table]
    have hnilfilter : s1.table.filter
        (fun r0 => !(((p.tasksM r s).1.map p.rowOf).map rowId).contains (rowId r0)) = [] := by
      apply List.filter_eq_nil_iff.mpr
      intro r0 hr0
      rw [hcanon] at hr0
      have hmemW := rowId_mem_of_mem_canonical _ r0 hr0
      simp at hmemW ⊢
      exact hmemW
    rw [hnilfilter, List.nil_append, ← hcanon]
  refine ⟨rfl, htable2, ?_, ?_⟩
  · rw [hts1]
    exact hstale2
  · rw [hS2, hstale2]
    simp

/-- C4 (project-not-found): when the remote reports not-found for the
configured project id, the metadata fetch raises NoSuchProjectException,
and create_table() without a configured table name fails with that error
before issuing any write: statement log and table are untouched. -/
theorem claim_C4_project_not_found (p : Project) (r : Remote) (s : SyncState)
    (hnf : r.projects_find_by_id p.project_id = none)
    (hcache : s.project_data_cache = none)
    (hcfg : truthy p.table_name_cfg = false) :
    (p.projectData r s).1 = .error (.noSuchProject p.project_id) ∧
    (p.createTable r s).1 = .error (.noSuchProject p.project_id) ∧
    (p.createTable r s).2.statements = s.statements ∧
    (p.createTable r s).2.table = s.table := by
  unfold Project.createTable Project.tableName Project.projectName Project.projectData
  rw [hcache, hnf]
  simp [hcfg]

/-- C5 (truncation warning): a top-level fetch of 50 or more records prints
one warning, fewer than 50 prints none (the threshold is tested before
subtask expansion), and every top-level record is still processed (it
appears in the returned task list). -/
theorem claim_C5_truncation_warning (p : Project) (r : Remote) (s : SyncState)
    (hcache : s.task_cache = none) :
    (50 ≤ (r.tasks_find_by_project p.project_id p.requiredFields).length →
       (p.tasksM r s).2.warnings = s.warnings + 1) ∧
    ((r.tasks_find_by_project p.project_id p.requiredFields).length < 50 →
       (p.tasksM r s).2.warnings = s.warnings) ∧
    (∀ t ∈ r.tasks_find_by_project p.project_id p.requiredFields,
       t ∈ (p.tasksM r s).1) ∧
    (p.config.with_subtasks = true →
       ∀ t ∈ r.tasks_find_by_project p.project_id p.requiredFields,
       ∀ t2 ∈ r.tasks_subtasks (Task.get t "id") p.requiredFields,
         t2 ∈ (p.tasksM r s).1) := by
  unfold Project.tasksM
  rw [hcache]
  by_cases hw : p.config.with_subtasks
  · simp only [hw, if_true]
    refine ⟨?_, ?_, ?_, ?_⟩
    · intro h
      simp [if_pos h]
    · intro h
      have h2 : ¬ 50 ≤ (r.tasks_find_by_project p.project_id p.requiredFields).length :=
        by omega
      simp [if_neg h2]
    · intro t ht
      simp
      exact Or.inl ht
    · intro _ t ht t2 ht2
      simp
      exact Or.inr ⟨t, ht, ht2⟩
  · simp only [hw, if_false, Bool.false_eq_true]
    refine ⟨?_, ?_, ?_, ?_⟩
    · intro h
      simp [if_pos h]
    · intro h
      have h2 : ¬ 50 ≤ (r.tasks_find_by_project p.project_id p.requiredFields).length :=
        by omega
      simp [if_neg h2]
    · intro t ht
      simpa using ht
    · intro hcontra
      exact absurd hcontra (by simp [hw])

/-- C9 (subtask flattening): with subtask inclusion enabled, the task set
is the top-level fetch followed by the per-task subtask fetches, flattened
into one sequence. -/
theorem claim_C9_subtask_flattening (p : Project) (r : Remote) (s : SyncState)
    (hcache : s.task_cache = none) (hw : p.config.with_subtasks = true) :
    (p.tasksM r s).1 =
      r.tasks_find_by_project p.project_id p.requiredFields ++
      ((r.tasks_find_by_project p.project_id p.requiredFields).map
        (fun t => r.tasks_subtasks (Task.get t "id") p.requiredFields)).flatten := by
  unfold Project.tasksM
  rw [hcache]
  simp [hw]

/-- C6 (single fetch per instance): a successful metadata or task fetch is
cached, and any repeated call returns the identical value with the state
unchanged (hence no further remote fetch); a first call with an empty cache
records exactly the corresponding fetch event. -/
theorem claim_C6_fetch_caching (p : Project) (r : Remote) :
    (∀ s d s1, p.projectData r s = (.ok d, s1) → p.projectData r s1 = (.ok d, s1)) ∧
    (∀ s ts s1, p.tasksM r s = (ts, s1) → p.tasksM r s1 = (ts, s1)) ∧
    (∀ s, s.project_data_cache = none →
       (p.projectData r s).2.fetches = s.fetches ++ [FetchEvent.project p.project_id]) ∧
    (∀ s, s.task_cache = none → ∃ evs,
       (p.tasksM r s).2.fetches =
         s.fetches ++ FetchEvent.tasksByProject p.project_id p.requiredFields :: evs) := by
  refine ⟨?_, ?_, ?_, ?_⟩
  · intro s d s1 h
    have hcache1 : s1.project_data_cache = some d := by
      unfold Project.projectData at h
      cases hc : s.project_data_cache with
      | some d0 =>
        rw [hc] at h
        simp at h
        rw [← h.2, hc, h.1]
      | none =>
        rw [hc] at h
        cases hf : r.projects_find_by_id p.project_id with
        | some d0 =>
          rw [hf] at h
          simp at h
          rw [← h.2]
          simp [h.1]
        | none =>
          rw [hf] at h
          simp at h
    unfold Project.projectData
    rw [hcache1]
  · intro s ts s1 h
    have hspec := (tasksM_spec p r s).2.2.2
    rw [h] at hspec
    exact tasksM_cached p r s1 ts hspec
  · intro s hc
    unfold Project.projectData
    rw [hc]
    cases hf : r.projects_find_by_id p.project_id <;> simp
  · intro s hc
    unfold Project.tasksM
    rw [hc]
    by_cases hw : p.config.with_subtasks
    · refine ⟨(r.tasks_find_by_project p.project_id p.requiredFields).map
        (fun t => FetchEvent.subtasksOf (Task.get t "id") p.requiredFields), ?_⟩
      simp [hw]
    · refine ⟨[], ?_⟩
      simp [hw]

/-- Example identity field: a direct field extracting the id attribute. -/
def exIdField : Field :=
  { sql_name := some "id"
    required_fields := ["id"]
    get_data_from_object := fun t => Task.get t "id"
    field_definition_sql := "id INTEGER PRIMARY KEY" }

/-- Example indirect field: no column, requires the projects attribute. -/
def exIndirectField : Field :=
  { sql_name := none
    required_fields := ["projects"]
    get_data_from_object := fun _ => Value.vnone
    field_definition_sql := "" }

/-- Example remote task A with id 10. -/
def taskA : Task := [("id", Value.vnat 10), ("name", Value.vstr "A")]

/-- Example subtask A1 of task A, with id 11. -/
def taskA1 : Task := [("id", Value.vnat 11), ("name", Value.vstr "A1")]

/-- Example remote: one project (id 1, name My Project) whose task A has
subtask A1. -/
def exRemote : Remote :=
  { projects_find_by_id := fun pid =>
      if pid = some 1 then some { id := 1, name := "My Project", archived := false }
      else none
    tasks_find_by_project := fun pid _ => if pid = some 1 then [taskA] else []
    tasks_subtasks := fun tid _ => if tid = Value.vnat 10 then [taskA1] else [] }

/-- Fresh state: empty caches, logs, and table. -/
def freshState : SyncState :=
  { project_data_cache := none
    task_cache := none
    fetches := []
    warnings := 0
    statements := []
    table := [] }

/-- Example configuration with an explicitly configured table name that
holds a non-alphanumeric character. -/
def cfgNamed : Config :=
  { project_id := some 1, table_name := some "my table", with_subtasks := false }

/-- Project instance configured with the explicit name. -/
def projNamed : Project := Project.init cfgNamed [exIdField, exIndirectField]

/-- C7 counterexample: the claim says table_name() returns the explicitly
configured table name when one is configured; on the configured name
containing a space it instead returns the SQL-safe transformation, which
differs from the configured name. -/
theorem claim_C7_counterexample :
    (projNamed.tableName exRemote freshState).1 = .ok "my_table" ∧
    (projNamed.tableName exRemote freshState).1 ≠ .ok "my table" := by
  have h : (projNamed.tableName exRemote freshState).1 = .ok "my_table" := rfl
  refine ⟨h, ?_⟩
  rw [h]
  intro hcontra
  have heq : "my_table" = "my table" := by injection hcontra
  exact absurd heq (by decide)

/-- C7 amended: table_name() returns the SQL-safe transformation of the
explicitly configured table name when a truthy one is configured, with the
state unchanged (no remote fetch); otherwise it returns the SQL-safe
transformation of the remote project display name, performing the metadata
fetch when it is not yet cached. -/
theorem claim_C7_table_name_resolution (p : Project) (r : Remote) (s : SyncState) :
    (∀ n, p.table_name_cfg = some n → n ≠ "" →
       p.tableName r s = (.ok (sql_safe_name n), s)) ∧
    (truthy p.table_name_cfg = false → ∀ d,
       s.project_data_cache = none → r.projects_find_by_id p.project_id = some d →
       (p.tableName r s).1 = .ok (sql_safe_name d.name) ∧
       (p.tableName r s).2.fetches = s.fetches ++ [FetchEvent.project p.project_id]) := by
  constructor
  · intro n hn hne
    unfold Project.tableName
    have ht : truthy p.table_name_cfg = true := by
      rw [hn]
      simpa [truthy] using hne
    rw [ht]
    simp [hn]
  · intro hfalsy d hcache hfind
    unfold Project.tableName Project.projectName Project.projectData
    rw [hfalsy, hcache, hfind]
    simp

/-- C10 (identity field by position): the identity field is the first
declared direct field; with at least one direct field the identity lookup
never raises the index error, and with none, delete, db_task_ids, and hence
synchronize fail with the index error leaving the state untouched (no
statement issued). -/
theorem claim_C10_identity_field (p : Project) (r : Remote) (s : SyncState) (v : Value) :
    (∀ f0 fs, p.direct_fields = f0 :: fs → p.idField = some f0) ∧
    (p.direct_fields ≠ [] →
       (p.delete r v s).1 ≠ .error .indexError ∧
       (p.dbTaskIds r s).1 ≠ .error .indexError) ∧
    (p.direct_fields = [] →
       p.delete r v s = (.error .indexError, s) ∧
       p.dbTaskIds r s = (.error .indexError, s) ∧
       p.synchronize r s = (.error .indexError, s)) := by
  refine ⟨?_, ?_, ?_⟩
  · intro f0 fs hd
    unfold Project.idField
    rw [hd]
    rfl
  · intro hne
    obtain ⟨f0, fs, hd⟩ : ∃ f0 fs, p.direct_fields = f0 :: fs := by
      cases hcase : p.direct_fields with
      | nil => exact absurd hcase hne
      | cons f0 fs => exact ⟨f0, fs, rfl⟩
    have hno : ∀ e s1, p.tableName r s = (.error e, s1) → e = .noSuchProject p.project_id := by
      intro e s1 h
      unfold Project.tableName Project.projectName Project.projectData at h
      by_cases ht : truthy p.table_name_cfg
      · rw [ht] at h
        simp at h
      · rw [if_neg (by simp [ht])] at h
        cases hc : s.project_data_cache with
        | some d => rw [hc] at h; simp at h
        | none =>
          rw [hc] at h
          cases hf : r.projects_find_by_id p.project_id with
          | some d => rw [hf] at h; simp at h
          | none =>
            rw [hf] at h
            simp at h
            exact h.1.symm
    constructor
    · unfold Project.delete Project.idField
      rw [hd]
      simp only [List.head?]
      cases htn : p.tableName r s with
      | mk res s1 =>
        cases res with
        | error e =>
          have := hno e s1 htn
          subst this
          simp
        | ok tn => simp
    · unfold Project.dbTaskIds Project.idField
      rw [hd]
      simp only [List.head?]
      cases htn : p.tableName r s with
      | mk res s1 =>
        cases res with
        | error e =>
          have := hno e s1 htn
          subst this
          simp
        | ok tn => simp
  · intro hnil
    have hdel : p.delete r v s = (.error .indexError, s) := by
      unfold Project.delete Project.idField
      rw [hnil]
      rfl
    have hdb : p.dbTaskIds r s = (.error .indexError, s) := by
      unfold Project.dbTaskIds Project.idField
      rw [hnil]
      rfl
    refine ⟨hdel, hdb, ?_⟩
    unfold Project.synchronize
    rw [hdb]

/-- The union of required-attribute sets over a field list. -/
def unionReq (l : List Field) : Finset String :=
  l.foldr (fun f acc => f.required_fields.toFinset ∪ acc) ∅

/-- Membership in the required-attribute union. -/
theorem mem_unionReq (l : List Field) (v : String) :
    v ∈ unionReq l ↔ ∃ f ∈ l, v ∈ f.required_fields := by
  induction l with
  | nil => simp [unionReq]
  | cons f rest ih =>
    unfold unionReq at ih ⊢
    simp [ih]

/-- The constructor fold partitions the declared fields into the direct and
indirect lists, preserving declaration order. -/
theorem foldl_addField_eq (fields : List Field) (a b : List Field) :
    fields.foldl addField (a, b) =
      (a ++ fields.filter (fun f => truthy f.sql_name),
       b ++ fields.filter (fun f => !truthy f.sql_name)) := by
  induction fields generalizing a b with
  | nil => simp
  | cons f rest ih =>
    rw [List.foldl_cons]
    by_cases hf : truthy f.sql_name
    · have hstep : addField (a, b) f = (a ++ [f], b) := by
        unfold addField
        rw [if_pos hf]
      rw [hstep, ih]
      simp [hf]
    · have hstep : addField (a, b) f = (a, b ++ [f]) := by
        unfold addField
        rw [if_neg hf]
      rw [hstep, ih]
      simp [hf]

/-- C8 (projection minimality): for a Project built from any declared field
list, the attribute projection used for remote fetches equals the union of
the required attributes of all declared fields, direct and indirect alike
(a Finset: no duplicates); and every fetch event recorded by a task fetch
carries exactly that projection. -/
theorem claim_C8_projection (config : Config) (fields : List Field)
    (r : Remote) (s : SyncState) :
    (Project.init config fields).requiredFields = unionReq fields ∧
    (∀ e, e ∈ ((Project.init config fields).tasksM r s).2.fetches →
       e ∈ s.fetches ∨
       FetchEvent.projection e = some (Project.init config fields).requiredFields) := by
  constructor
  · show unionReq ((Project.init config fields).direct_fields ++
      (Project.init config fields).indirect_fields) = unionReq fields
    have hpart := foldl_addField_eq fields [] []
    unfold Project.init
    simp only [hpart]
    ext v
    rw [mem_unionReq, mem_unionReq]
    constructor
    · rintro ⟨f, hf, hv⟩
      simp at hf
      rcases hf with hf | hf
      · exact ⟨f, hf.1, hv⟩
      · exact ⟨f, hf.1, hv⟩
    · rintro ⟨f, hf, hv⟩
      by_cases hd : truthy f.sql_name
      · refine ⟨f, ?_, hv⟩
        simp [List.mem_filter, hf, hd]
      · refine ⟨f, ?_, hv⟩
        simp [List.mem_filter, hf, hd]
  · intro e he
    cases hc : s.task_cache with
    | some ts =>
      rw [tasksM_cached (Project.init config fields) r s ts hc] at he
      exact Or.inl he
    | none =>
      unfold Project.tasksM at he
      rw [hc] at he
      by_cases hw : (Project.init config fields).config.with_subtasks
      · rw [if_pos hw] at he
        simp at he
        rcases he with he | he | ⟨t, ht, he⟩
        · exact Or.inl he
        · rw [he]
          exact Or.inr rfl
        · rw [← he]
          exact Or.inr rfl
      · rw [if_neg hw] at he
        simp at he
        rcases he with he | he
        · exact Or.inl he
        · rw [he]
          exact Or.inr rfl

/-- Example configuration with an explicit alphanumeric table name. -/
def cfgSync : Config :=
  { project_id := some 1, table_name := some "tasks0", with_subtasks := false }

/-- Example synchronizer with one direct (identity) and one indirect field. -/
def projSync : Project := Project.init cfgSync [exIdField, exIndirectField]

/-- Witness for C1: the concrete synchronize run converges. -/
theorem claim_C1_convergence_witness :
    (projSync.synchronize exRemote freshState).1 = .ok () ∧
    Table.ids (projSync.synchronize exRemote freshState).2.table =
      taskIds (projSync.tasksM exRemote freshState).1 :=
  claim_C1_convergence projSync exRemote freshState "tasks0" exIdField []
    (Or.inl rfl) rfl rfl (fun _ => rfl)

/-- Witness for C2: the concrete second synchronize run changes nothing. -/
theorem claim_C2_idempotence_witness :
    (projSync.synchronize exRemote (projSync.synchronize exRemote freshState).2).1 = .ok () ∧
    (projSync.synchronize exRemote (projSync.synchronize exRemote freshState).2).2.table =
      (projSync.synchronize exRemote freshState).2.table ∧
    staleIds (projSync.synchronize exRemote freshState).2.table
      (projSync.tasksM exRemote (projSync.synchronize exRemote freshState).2).1 = [] ∧
    (projSync.synchronize exRemote (projSync.synchronize exRemote freshState).2).2.statements =
      (projSync.synchronize exRemote freshState).2.statements ++
        (projSync.tasksM exRemote freshState).1.map
          (fun t => Stmt.upsert "tasks0" projSync.columnNames (projSync.rowOf t)) :=
  claim_C2_idempotence projSync exRemote freshState "tasks0" exIdField []
    (Or.inl rfl) rfl rfl (fun _ => rfl)

/-- Witness for C3: the concrete statement trace is upserts then deletes. -/
theorem claim_C3_upserts_before_deletes_witness :
    (projSync.synchronize exRemote freshState).1 = .ok () ∧
    (projSync.synchronize exRemote freshState).2.statements = freshState.statements ++
      (projSync.tasksM exRemote freshState).1.map
        (fun t => Stmt.upsert "tasks0" projSync.columnNames (projSync.rowOf t)) ++
      (staleIds freshState.table (projSync.tasksM exRemote freshState).1).map
        (fun v => Stmt.delete "tasks0" (exIdField.sql_name.getD "") v) ∧
    (staleIds freshState.table (projSync.tasksM exRemote freshState).1).toFinset =
      Table.ids freshState.table \ taskIds (projSync.tasksM exRemote freshState).1 :=
  claim_C3_upserts_before_deletes projSync exRemote freshState "tasks0" exIdField []
    (Or.inl rfl) rfl rfl

/-- Example configuration naming a project id the remote does not have. -/
def cfgMissing : Config :=
  { project_id := some 2, table_name := none, with_subtasks := false }

/-- Synchronizer aimed at the missing project. -/
def projMissing : Project := Project.init cfgMissing [exIdField]

/-- Witness for C4: create_table on the missing project fails cleanly. -/
theorem claim_C4_project_not_found_witness :
    (projMissing.projectData exRemote freshState).1 = .error (.noSuchProject (some 2)) ∧
    (projMissing.createTable exRemote freshState).1 = .error (.noSuchProject (some 2)) ∧
    (projMissing.createTable exRemote freshState).2.statements = freshState.statements ∧
    (projMissing.createTable exRemote freshState).2.table = freshState.table :=
  claim_C4_project_not_found projMissing exRemote freshState (by decide) rfl rfl

/-- Fifty distinct remote tasks. -/
def manyTasks : List Task :=
  (List.range 50).map (fun i => [("id", Value.vnat i)])

/-- Remote returning the fifty tasks for every project. -/
def bigRemote : Remote :=
  { projects_find_by_id := fun _ => none
    tasks_find_by_project := fun _ _ => manyTasks
    tasks_subtasks := fun _ _ => [] }

/-- Witness for C5: fifty fetched tasks trip the warning and stay processed. -/
theorem claim_C5_truncation_warning_witness :
    (50 ≤ manyTasks.length →
       (projSync.tasksM bigRemote freshState).2.warnings = freshState.warnings + 1) ∧
    (manyTasks.length < 50 →
       (projSync.tasksM bigRemote freshState).2.warnings = freshState.warnings) ∧
    (∀ t ∈ manyTasks, t ∈ (projSync.tasksM bigRemote freshState).1) ∧
    (projSync.config.with_subtasks = true →
       ∀ t ∈ manyTasks, ∀ t2 ∈ bigRemote.tasks_subtasks (Task.get t "id")
         projSync.requiredFields, t2 ∈ (projSync.tasksM bigRemote freshState).1) :=
  claim_C5_truncation_warning projSync bigRemote freshState rfl

/-- Witness for C6: the second task fetch returns the cache unchanged and
the first metadata fetch logs exactly one fetch event. -/
theorem claim_C6_fetch_caching_witness :
    projSync.tasksM exRemote (projSync.tasksM exRemote freshState).2 =
      ((projSync.tasksM exRemote freshState).1, (projSync.tasksM exRemote freshState).2) ∧
    (projSync.projectData exRemote freshState).2.fetches =
      freshState.fetches ++ [FetchEvent.project (some 1)] := by
  have h := claim_C6_fetch_caching projSync exRemote
  exact ⟨h.2.1 freshState (projSync.tasksM exRemote freshState).1
      (projSync.tasksM exRemote freshState).2 rfl,
    h.2.2.1 freshState rfl⟩

/-- Configuration with no explicit table name, aimed at the existing project. -/
def cfgUnnamed : Config :=
  { project_id := some 1, table_name := none, with_subtasks := false }

/-- Synchronizer that must resolve its table name from the project name. -/
def projUnnamed : Project := Project.init cfgUnnamed [exIdField]

/-- Witness for C7: the configured name is slugged without a fetch; the
unconfigured project resolves through one metadata fetch. -/
theorem claim_C7_table_name_resolution_witness :
    projNamed.tableName exRemote freshState = (.ok (sql_safe_name "my table"), freshState) ∧
    (projUnnamed.tableName exRemote freshState).1 = .ok (sql_safe_name "My Project") ∧
    (projUnnamed.tableName exRemote freshState).2.fetches =
      freshState.fetches ++ [FetchEvent.project (some 1)] := by
  have h1 := (claim_C7_table_name_resolution projNamed exRemote freshState).1
    "my table" rfl (by decide)
  have h2 := (claim_C7_table_name_resolution projUnnamed exRemote freshState).2
    rfl { id := 1, name := "My Project", archived := false } rfl (by decide)
  exact ⟨h1, h2.1, h2.2⟩

/-- Witness for C8: the concrete projection and its fetch event. -/
theorem claim_C8_projection_witness :
    projSync.requiredFields = unionReq [exIdField, exIndirectField] ∧
    (FetchEvent.tasksByProject (some 1) projSync.requiredFields ∈ freshState.fetches ∨
     FetchEvent.projection (FetchEvent.tasksByProject (some 1) projSync.requiredFields) =
       some projSync.requiredFields) := by
  have h := claim_C8_projection cfgSync [exIdField, exIndirectField] exRemote freshState
  refine ⟨h.1, h.2 (FetchEvent.tasksByProject (some 1) projSync.requiredFields) ?_⟩
  have hev : (projSync.tasksM exRemote freshState).2.fetches =
      [FetchEvent.tasksByProject (some 1) projSync.requiredFields] := rfl
  show FetchEvent.tasksByProject (some 1) projSync.requiredFields ∈
    (projSync.tasksM exRemote freshState).2.fetches
  rw [hev]
  exact List.mem_singleton.mpr rfl

/-- Configuration with subtask inclusion enabled. -/
def cfgSub : Config :=
  { project_id := some 1, table_name := some "tasks0", with_subtasks := true }

/-- Synchronizer with subtask inclusion. -/
def projSub : Project := Project.init cfgSub [exIdField]

/-- Witness for C9: task A and its subtask A1 are both returned, flattened. -/
theorem claim_C9_subtask_flattening_witness :
    (projSub.tasksM exRemote freshState).1 = [taskA, taskA1] := by
  have h := claim_C9_subtask_flattening projSub exRemote freshState rfl rfl
  rw [h]
  rfl

/-- Synchronizer declaring only an indirect field: no direct fields. -/
def projNoDirect : Project := Project.init cfgSync [exIndirectField]

/-- Witness for C10: the identity field is the first direct field, and with
no direct fields delete and synchronize fail with the index error leaving
the state untouched. -/
theorem claim_C10_identity_field_witness :
    projSync.idField = some exIdField ∧
    projNoDirect.delete exRemote (Value.vnat 10) freshState =
      (.error .indexError, freshState) ∧
    projNoDirect.synchronize exRemote freshState =
      (.error .indexError, freshState) := by
  have h1 := (claim_C10_identity_field projSync exRemote freshState (Value.vnat 10)).1
    exIdField [] rfl
  have h2 := (claim_C10_identity_field projNoDirect exRemote freshState (Value.vnat 10)).2.2
    rfl
  exact ⟨h1, h2.1, h2.2.2⟩

end Asana2Sql
